import Mathlib

/-!
Verification of the eagletools document parser and reference-resolution
model (src/eagletools/parser.py and src/eagletools/cli.py), via a shallow
embedding: XML elements become a tree datatype, Python dicts become
association lists with Python's insertion semantics, and every fallible
construction returns an Except value whose error constructors mirror the
exceptions the Python code raises.
-/

namespace EagleTools

/-- An XML element as supplied by ElementTree: a tag, an attribute
mapping, optional text content, and an ordered list of children. -/
inductive Element where
  | mk (tag : String) (attrib : List (String × String))
       (text : Option String) (children : List Element)
deriving Repr

def Element.tag : Element → String
  | .mk t _ _ _ => t

def Element.attrib : Element → List (String × String)
  | .mk _ a _ _ => a

def Element.text : Element → Option String
  | .mk _ _ x _ => x

def Element.children : Element → List Element
  | .mk _ _ _ c => c

/-- `element.attrib.get(key)` / `element.attrib[key]` lookup result. -/
def attrGet (e : Element) (k : String) : Option String :=
  (e.attrib.find? (fun p => p.1 == k)).map (·.2)

/-- The children of an element carrying a given tag; one step of an
ElementTree path query. -/
def childrenTagged (e : Element) (t : String) : List Element :=
  e.children.filter (fun c => c.tag == t)

/-- `element.iterfind('./t')` for a single-segment path. -/
def iterfind1 (e : Element) (t : String) : List Element :=
  childrenTagged e t

/-- `element.iterfind('./t1/t2')` for a two-segment path: all `t2`
children of all `t1` children, in document order. -/
def iterfind2 (e : Element) (t1 t2 : String) : List Element :=
  (childrenTagged e t1).flatMap (fun c => childrenTagged c t2)

/-- `element.find('./t1/t2')`: first match in document order or None. -/
def find2 (e : Element) (t1 t2 : String) : Option Element :=
  (iterfind2 e t1 t2).head?

/-- `element.find('./t')`: first match or None. -/
def find1 (e : Element) (t : String) : Option Element :=
  (iterfind1 e t).head?

/-- The exceptions raised by the parser and its consumers, one
constructor per distinct failure mode of the Python code. -/
inductive EagleError where
  /-- ValueError('Not an EAGLE file') in load_file. -/
  | notEagleDocument
  /-- ValueError('Corrupt or unhandled EAGLE file') in load_file. -/
  | unrecognizedDocument
  /-- NotImplementedError from Board.from_et. -/
  | unsupported
  /-- KeyError from a required attribute lookup, tagged with the key. -/
  | missingAttribute (key : String)
  /-- AttributeError from Library.ref on a nameless Library. -/
  | missingIdentity
  /-- ValueError from _parse_bool, tagged with the offending token
  (none when no token was available at all). -/
  | invalidEncoding (token : Option String)
  /-- KeyError from the part-resolution lookup chain in cli.parts,
  tagged with the segment that failed. -/
  | unresolvedReference (segment : String)
  /-- The assert False at the end of parse_file (unreachable). -/
  | assertionFailed
deriving Repr, DecidableEq

/-- `element.attrib[key]`: a required attribute, KeyError when absent. -/
def requireAttr (e : Element) (k : String) : Except EagleError String :=
  match attrGet e k with
  | none => .error (.missingAttribute k)
  | some v => .ok v

/-- Association-list model of a Python dict, with Python's semantics:
assigning to an existing key replaces its value in place, assigning a
fresh key appends it. -/
def dictInsert {κ α : Type} [BEq κ] (d : List (κ × α)) (k : κ) (v : α) :
    List (κ × α) :=
  if d.any (fun p => p.1 == k) then
    d.map (fun p => if p.1 == k then (k, v) else p)
  else
    d ++ [(k, v)]

/-- `d[k]` as an Option: the value stored under `k`, if any. -/
def dictLookup {κ α : Type} [BEq κ] (d : List (κ × α)) (k : κ) : Option α :=
  (d.find? (fun p => p.1 == k)).map (·.2)

/-- The key list of a dict, in insertion order. -/
def dictKeys {κ α : Type} (d : List (κ × α)) : List κ :=
  d.map (·.1)

/-- `d.update(other)`: fold every entry of `other` into `d`, in
insertion order, overwriting on key collision. -/
def dictUpdate {κ α : Type} [BEq κ] (d other : List (κ × α)) :
    List (κ × α) :=
  other.foldl (fun acc p => dictInsert acc p.1 p.2) d

/-- `d[k]` as a fallible operation: KeyError (mapped to `err`) when the
key is absent. -/
def dictGetOr {κ α : Type} [BEq κ] (d : List (κ × α)) (k : κ)
    (err : EagleError) : Except EagleError α :=
  match dictLookup d k with
  | none => .error err
  | some v => .ok v

/-- parser.py LibraryRef: identity key of a library. -/
structure LibraryRef where
  name : String
  urn : String
deriving Repr, DecidableEq

/-- parser.py _parse_bool: 'no' is false, 'yes' is true, anything else
raises ValueError(value). -/
def parse_bool (value : String) : Except EagleError Bool :=
  if value == "no" then .ok false
  else if value == "yes" then .ok true
  else .error (.invalidEncoding (some value))

/-- parser.py _text_at with none_ok: the found child's text, or none
when no child matches the query. -/
def text_at1 (e : Element) (t : String) : Option String :=
  match find1 e t with
  | none => none
  | some found => found.text

/-- Python's `c in s` substring test for a one-character needle. -/
def pyContains (s : String) (c : Char) : Bool :=
  s.data.contains c

/-- Replace every occurrence of the character `c` by `rep`, on the
underlying character list. -/
def charReplace (c : Char) (rep : List Char) : List Char → List Char
  | [] => []
  | x :: xs =>
      if x = c then rep ++ charReplace c rep xs
      else x :: charReplace c rep xs

/-- Python's `s.replace(old, new)` for a one-character `old`. -/
def pyReplace (s : String) (c : Char) (rep : String) : String :=
  ⟨charReplace c rep.data s.data⟩

/-- cli.py _format_dev: substitute '?' with the variant name (append
when absent), then '*' with the technology name (append when absent). -/
def format_dev (dev : String) (var : Option String) (tech : Option String) :
    String :=
  let result := dev
  let result :=
    match var with
    | none => result
    | some v => if pyContains result '?' then pyReplace result '?' v
                else result ++ v
  match tech with
  | none => result
  | some t => if pyContains result '*' then pyReplace result '*' t
              else result ++ t

/-- parser.py _parse_map: the dict comprehension
`{e.attrib['name']: parser(e) for e in element.iterfind(query)}`,
unrolled as sequential recursion over the matched children with an
accumulated dict (key evaluated before value, as in Python 3.8+). -/
def parse_map_list {α : Type} (dec : Element → Except EagleError α) :
    List Element → List (String × α) → Except EagleError (List (String × α))
  | [], acc => .ok acc
  | c :: cs, acc =>
    match attrGet c "name" with
    | none => .error (.missingAttribute "name")
    | some k =>
      match dec c with
      | .error err => .error err
      | .ok v => parse_map_list dec cs (dictInsert acc k v)

/-- parser.py Technology. -/
structure Technology where
  name : String
  attributes : List (String × String)
deriving Repr, DecidableEq

/-- parser.py Technology.from_et. -/
def Technology.from_et (e : Element) : Except EagleError Technology :=
  match requireAttr e "name" with
  | .error err => .error err
  | .ok name =>
    match parse_map_list (fun c => requireAttr c "value")
        (iterfind1 e "attribute") [] with
    | .error err => .error err
    | .ok attributes => .ok ⟨name, attributes⟩

/-- parser.py Variant. -/
structure Variant where
  name : String
  package : Option String
  technologies : List (String × Technology)
deriving Repr, DecidableEq

/-- parser.py Variant.from_et. -/
def Variant.from_et (e : Element) : Except EagleError Variant :=
  match requireAttr e "name" with
  | .error err => .error err
  | .ok name =>
    match parse_map_list Technology.from_et
        (iterfind2 e "technologies" "technology") [] with
    | .error err => .error err
    | .ok techs => .ok ⟨name, attrGet e "package", techs⟩

/-- parser.py Device (a device family / deviceset). The source's field
name for the designator prefix is a reserved word here, hence the
trailing underscore. -/
structure Device where
  name : String
  prefix_ : String
  uservalue : Bool
  description : Option String
  gates : List (String × Element)
  variants : List (String × Variant)
deriving Repr

/-- The variants loop of Device.from_et: the key is
`var_elt.attrib.get('name', '')` (computed first, defaulting to the
empty string) while the value is `Variant.from_et(var_elt)` (which
itself requires the name attribute). -/
def parse_variants_list :
    List Element → List (String × Variant) →
    Except EagleError (List (String × Variant))
  | [], acc => .ok acc
  | c :: cs, acc =>
    match Variant.from_et c with
    | .error err => .error err
    | .ok v =>
        parse_variants_list cs (dictInsert acc ((attrGet c "name").getD "") v)

/-- parser.py Device.from_et. -/
def Device.from_et (e : Element) : Except EagleError Device :=
  match requireAttr e "name" with
  | .error err => .error err
  | .ok name =>
    match parse_bool ((attrGet e "uservalue").getD "no") with
    | .error err => .error err
    | .ok uservalue =>
      match parse_map_list (fun c => .ok c) (iterfind2 e "gates" "gate") [] with
      | .error err => .error err
      | .ok gates =>
        match parse_variants_list (iterfind2 e "devices" "device") [] with
        | .error err => .error err
        | .ok variants =>
          .ok ⟨name, (attrGet e "prefix").getD "", uservalue,
               text_at1 e "description", gates, variants⟩

/-- parser.py Library. -/
structure Library where
  name : Option String
  urn : String
  description : Option String
  packages : List (String × Element)
  symbols : List (String × Element)
  devices : List (String × Device)
deriving Repr

/-- parser.py Library.from_et. Per the source comment, the name
attribute is only present within board/schematic files. -/
def Library.from_et (e : Element) : Except EagleError Library :=
  match parse_map_list (fun c => .ok c) (iterfind2 e "packages" "package") [] with
  | .error err => .error err
  | .ok packages =>
    match parse_map_list (fun c => .ok c) (iterfind2 e "symbols" "symbol") [] with
    | .error err => .error err
    | .ok symbols =>
      match parse_map_list Device.from_et
          (iterfind2 e "devicesets" "deviceset") [] with
      | .error err => .error err
      | .ok devices =>
        .ok ⟨attrGet e "name", (attrGet e "urn").getD "",
             text_at1 e "description", packages, symbols, devices⟩

/-- parser.py Library.ref: AttributeError on a nameless Library. -/
def Library.ref (l : Library) : Except EagleError LibraryRef :=
  match l.name with
  | none => .error .missingIdentity
  | some n => .ok ⟨n, l.urn⟩

/-- parser.py _parse_library_map: for each matched child, build the
Library, derive its ref, and store it under that ref. -/
def parse_library_map_list :
    List Element → List (LibraryRef × Library) →
    Except EagleError (List (LibraryRef × Library))
  | [], acc => .ok acc
  | c :: cs, acc =>
    match Library.from_et c with
    | .error err => .error err
    | .ok lib =>
      match lib.ref with
      | .error err => .error err
      | .ok r => parse_library_map_list cs (dictInsert acc r lib)

/-- parser.py Part. -/
structure Part where
  name : String
  library : String
  library_urn : String
  device : String
  variant : String
  technology : String
  value : Option String
  attributes : List (String × String)
deriving Repr, DecidableEq

/-- parser.py Part.from_et. -/
def Part.from_et (e : Element) : Except EagleError Part :=
  match requireAttr e "name" with
  | .error err => .error err
  | .ok name =>
    match requireAttr e "library" with
    | .error err => .error err
    | .ok library =>
      match requireAttr e "deviceset" with
      | .error err => .error err
      | .ok device =>
        match requireAttr e "device" with
        | .error err => .error err
        | .ok variant =>
          match parse_map_list (fun c => requireAttr c "value")
              (iterfind1 e "attribute") [] with
          | .error err => .error err
          | .ok attributes =>
            .ok ⟨name, library, (attrGet e "library_urn").getD "", device,
                 variant, (attrGet e "technology").getD "",
                 attrGet e "value", attributes⟩

/-- parser.py Part.library_ref. -/
def Part.library_ref (p : Part) : LibraryRef :=
  ⟨p.library, p.library_urn⟩

/-- parser.py Schematic. -/
structure Schematic where
  description : Option String
  libraries : List (LibraryRef × Library)
  parts : List (String × Part)
deriving Repr

/-- parser.py Schematic.from_et. -/
def Schematic.from_et (e : Element) : Except EagleError Schematic :=
  match parse_library_map_list (iterfind2 e "libraries" "library") [] with
  | .error err => .error err
  | .ok libraries =>
    match parse_map_list Part.from_et (iterfind2 e "parts" "part") [] with
    | .error err => .error err
    | .ok parts => .ok ⟨text_at1 e "description", libraries, parts⟩

/-- parser.py Board: a placeholder with no fields. -/
structure Board where
deriving Repr, DecidableEq

/-- parser.py Board.from_et: raises NotImplementedError. -/
def Board.from_et (_ : Element) : Except EagleError Board :=
  .error .unsupported

/-- `et.find('./drawing/' + t)` combined with the Python truthiness test
the source applies to it (`if board:` etc.): an ElementTree Element is
truthy only when it has at least one child, so a found-but-childless
element behaves like not-found. -/
def truthyFind (root : Element) (t : String) : Option Element :=
  match find2 root "drawing" t with
  | none => none
  | some e => if e.children.isEmpty then none else some e

/-- parser.py load_file (after the XML reader): validate the root tag,
then probe board, library, schematic in that order with Python
truthiness. -/
def load_file (root : Element) : Except EagleError (String × Element) :=
  if root.tag ≠ "eagle" then .error .notEagleDocument
  else
    match truthyFind root "board" with
    | some b => .ok ("board", b)
    | none =>
      match truthyFind root "library" with
      | some l => .ok ("library", l)
      | none =>
        match truthyFind root "schematic" with
        | some s => .ok ("schematic", s)
        | none => .error .unrecognizedDocument

/-- The Union[Board, Library, Schematic] return type of parse_file. -/
inductive ParsedDoc where
  | board (b : Board)
  | library (l : Library)
  | schematic (s : Schematic)
deriving Repr

/-- parser.py parse_file. -/
def parse_file (root : Element) : Except EagleError ParsedDoc := do
  let (t, el) ← load_file root
  if t == "board" then ParsedDoc.board <$> Board.from_et el
  else if t == "library" then ParsedDoc.library <$> Library.from_et el
  else if t == "schematic" then ParsedDoc.schematic <$> Schematic.from_et el
  else .error .assertionFailed

/-- A Python value used as a key into parsed.libraries in cli.parts:
either the bare string part.library (as the source writes it) or a
LibraryRef named tuple (a pair of strings). -/
inductive PyKey where
  | str (s : String)
  | pair (a b : String)
deriving Repr, DecidableEq

/-- Python == between such values: strings compare by content, tuples
componentwise, and a str never equals a tuple. -/
def PyKey.eq : PyKey → PyKey → Bool
  | .str a, .str b => a == b
  | .pair a b, .pair c d => a == c && b == d
  | _, _ => false

/-- A LibraryRef named tuple as a Python value. -/
def LibraryRef.toPyKey (r : LibraryRef) : PyKey :=
  .pair r.name r.urn

/-- `parsed.libraries[key]` for an arbitrary Python key value: Python
dict lookup compares the key against the stored LibraryRef keys with
Python ==; a miss is a KeyError. -/
def pyLibrariesGet (d : List (LibraryRef × Library)) (key : PyKey) :
    Except EagleError Library :=
  match (d.find? (fun p => PyKey.eq p.1.toPyKey key)).map (·.2) with
  | none => .error (.unresolvedReference "library")
  | some lib => .ok lib

/-- cli.py parts, line 127, exactly as written:
parsed.libraries[part.library].devices[part.device]
.variants[part.variant].technologies[part.technology] — note the first
subscript uses the bare string part.library, not part.library_ref. -/
def cli_resolve_tech (sch : Schematic) (part : Part) :
    Except EagleError Technology := do
  let lib ← pyLibrariesGet sch.libraries (.str part.library)
  let fam ← dictGetOr lib.devices part.device
      (.unresolvedReference "deviceset")
  let var ← dictGetOr fam.variants part.variant
      (.unresolvedReference "device")
  dictGetOr var.technologies part.technology
      (.unresolvedReference "technology")

/-- Modelled from the spec: the resolution chain of section 4.4, which
looks up LibraryRef(library_name, library_global_id) — i.e.
part.library_ref — in the Schematic's libraries mapping, then the
deviceset, device and technology names in turn. The repository's
cli.parts instead subscripts parsed.libraries with the bare string
part.library (see cli_resolve_tech). -/
def resolve_tech_by_ref (sch : Schematic) (part : Part) :
    Except EagleError Technology := do
  let lib ← dictGetOr sch.libraries part.library_ref
      (.unresolvedReference "library")
  let fam ← dictGetOr lib.devices part.device
      (.unresolvedReference "deviceset")
  let var ← dictGetOr fam.variants part.variant
      (.unresolvedReference "device")
  dictGetOr var.technologies part.technology
      (.unresolvedReference "technology")

/-- cli.py parts, lines 128-129, as a value computation:
attrs = tech.attributes.copy(); attrs.update(part.attributes). -/
def cliEffectiveAttrs (tech : Technology) (part : Part) :
    List (String × String) :=
  dictUpdate tech.attributes part.attributes

/-! A small store model of Python dict objects, to state the
frame/aliasing content of the effective-attribute computation: dicts
live in numbered cells, .copy() allocates a fresh cell, .update()
mutates exactly the cell it is called on. -/

/-- A store of dict objects; addresses are list indices. -/
structure Store where
  cells : List (List (String × String))
deriving Repr, DecidableEq

/-- Read the dict at an address. -/
def Store.read (h : Store) (a : Nat) : List (String × String) :=
  h.cells.getD a []

/-- Overwrite the dict at an address. -/
def Store.write (h : Store) (a : Nat) (v : List (String × String)) : Store :=
  ⟨h.cells.set a v⟩

/-- Allocate a fresh cell holding `v`, returning its address. -/
def Store.alloc (h : Store) (v : List (String × String)) : Store × Nat :=
  (⟨h.cells ++ [v]⟩, h.cells.length)

/-- `tech.attributes.copy()`: allocate a fresh dict with the same
entries. -/
def Store.copyAt (h : Store) (a : Nat) : Store × Nat :=
  h.alloc (h.read a)

/-- `attrs.update(part.attributes)`: mutate the dict at `a` in place. -/
def Store.updateAt (h : Store) (a : Nat) (kvs : List (String × String)) :
    Store :=
  h.write a (dictUpdate (h.read a) kvs)

/-- One iteration of the cli.parts loop body for one part against the
technology dict stored at `techAddr`: copy, then update the copy. -/
def partEffectiveRun (h : Store) (techAddr : Nat) (part : Part) :
    Store × Nat :=
  let hc := h.copyAt techAddr
  (hc.1.updateAt hc.2 part.attributes, hc.2)

/-- The cli.parts loop over a list of parts that all resolved to the
technology stored at `techAddr`. -/
def partsEffectiveRun (h : Store) (techAddr : Nat) :
    List Part → Store
  | [] => h
  | p :: ps => partsEffectiveRun (partEffectiveRun h techAddr p).1 techAddr ps

/-- Modelled from the spec: decode_bool(token, default) of section 4.1.
The repository has only _parse_bool(value) (parse_bool above); the
optional-token / default handling is inlined at its call site as
_parse_bool(element.attrib.get('uservalue', 'no')) (parser.py line 105),
so the wrapper taking an optional token and an optional bool default is
taken from the spec's words. -/
def decode_bool (token : Option String) (dflt : Option Bool) :
    Except EagleError Bool :=
  match token with
  | some t => parse_bool t
  | none =>
    match dflt with
    | some b => .ok b
    | none => .error (.invalidEncoding none)

/-! Concrete documents and their expected parses, used to instantiate
the theorems below on closed inputs. -/

/-- Shorthand for an element with no text content. -/
def el (tag : String) (attrib : List (String × String))
    (children : List Element) : Element :=
  .mk tag attrib none children

/-- A schematic element embedding one library "L" whose deviceset "D"
has variant "V" with the single unnamed technology, and one part "P1"
referencing exactly that chain. -/
def exSchElem : Element :=
  el "schematic" [] [
    el "libraries" [] [
      el "library" [("name", "L")] [
        el "devicesets" [] [
          el "deviceset" [("name", "D")] [
            el "devices" [] [
              el "device" [("name", "V")] [
                el "technologies" [] [
                  el "technology" [("name", "")] [
                    el "attribute" [("name", "MPN"), ("value", "X1")] [],
                    el "attribute" [("name", "TOL"), ("value", "1%")] []]]]]]]]],
    el "parts" [] [
      el "part" [("name", "P1"), ("library", "L"), ("deviceset", "D"),
                 ("device", "V")] [
        el "attribute" [("name", "MPN"), ("value", "X2")] []]]]

def exTech : Technology := ⟨"", [("MPN", "X1"), ("TOL", "1%")]⟩

def exVariant : Variant := ⟨"V", none, [("", exTech)]⟩

def exDevice : Device := ⟨"D", "", false, none, [], [("V", exVariant)]⟩

def exLibrary : Library := ⟨some "L", "", none, [], [], [("D", exDevice)]⟩

def exPart : Part := ⟨"P1", "L", "", "D", "V", "", none, [("MPN", "X2")]⟩

def exSch : Schematic :=
  ⟨none, [(⟨"L", ""⟩, exLibrary)], [("P1", exPart)]⟩

/-- An EAGLE document whose drawing holds a board element with no
children (so the board element is falsy under Python truthiness). -/
def c2doc : Element :=
  el "eagle" [("version", "9")] [el "drawing" [] [el "board" [] []]]

/-- An EAGLE document whose drawing holds a board element with one
child. -/
def c2boardFull : Element :=
  el "board" [] [el "plain" [] []]

def c2docFull : Element :=
  el "eagle" [("version", "9")] [el "drawing" [] [c2boardFull]]

/-- A deviceset whose single variant child has no name attribute. -/
def c3varElem : Element :=
  el "device" [("package", "P")] [
    el "technologies" [] [el "technology" [("name", "")] []]]

def c3elem : Element :=
  el "deviceset" [("name", "D")] [el "devices" [] [c3varElem]]

/-- A standalone library document: per the DTD the library element has
no name attribute. -/
def c5libElem : Element :=
  el "library" [] [el "packages" [] []]

def c5doc : Element :=
  el "eagle" [("version", "9")] [el "drawing" [] [c5libElem]]

def c5lib : Library := ⟨none, "", none, [], [], []⟩

/-- A library element as embedded in a schematic, carrying a name. -/
def c5namedElem : Element :=
  el "library" [("name", "L")] []

def c5named : Library := ⟨some "L", "", none, [], [], []⟩

/-- The library element embedded in exSchElem, on its own. -/
def c8libElem : Element :=
  el "library" [("name", "L")] [
    el "devicesets" [] [
      el "deviceset" [("name", "D")] [
        el "devices" [] [
          el "device" [("name", "V")] [
            el "technologies" [] [
              el "technology" [("name", "")] [
                el "attribute" [("name", "MPN"), ("value", "X1")] [],
                el "attribute" [("name", "TOL"), ("value", "1%")] []]]]]]]]

/-- A schematic document embedding a library element with no name
attribute. -/
def c10doc : Element :=
  el "schematic" [] [
    el "libraries" [] [el "library" [] [el "packages" [] []]]]

/-- The Library parsed from c10doc's embedded library element. -/
def c10lib : Library := ⟨none, "", none, [], [], []⟩

/-! Helper lemmas about the dict model. -/

theorem dictLookup_cons {κ α : Type} [BEq κ] (p : κ × α) (d : List (κ × α))
    (k : κ) :
    dictLookup (p :: d) k = if p.1 == k then some p.2 else dictLookup d k := by
  cases h : p.1 == k <;> simp [dictLookup, List.find?_cons, h]

theorem dictLookup_eq_none_of_not_mem {κ α : Type} [BEq κ] [LawfulBEq κ]
    (d : List (κ × α)) (k : κ) (h : k ∉ dictKeys d) : dictLookup d k = none := by
  induction d with
  | nil => rfl
  | cons p d ih =>
    simp only [dictKeys, List.map_cons, List.mem_cons, not_or] at h
    rw [dictLookup_cons, if_neg, ih]
    · simpa [dictKeys] using h.2
    · simp only [beq_iff_eq]
      exact fun he => h.1 he.symm

theorem dictLookup_map_replace {κ α : Type} [BEq κ] [LawfulBEq κ]
    (d : List (κ × α)) (k : κ) (v : α) (h : ∃ q ∈ d, q.1 = k) :
    dictLookup (d.map (fun p => if p.1 == k then (k, v) else p)) k = some v := by
  induction d with
  | nil => simp at h
  | cons q d ih =>
    simp only [List.map_cons]
    by_cases hq : q.1 = k
    · rw [if_pos (by simp [hq]), dictLookup_cons, if_pos (by simp)]
    · rw [if_neg (by simp [hq]), dictLookup_cons, if_neg (by simp [hq])]
      refine ih ?_
      rcases h with ⟨q', hq', hk⟩
      rcases List.mem_cons.mp hq' with h1 | h1
      · exact absurd (h1 ▸ hk) hq
      · exact ⟨q', h1, hk⟩

theorem dictLookup_map_replace_ne {κ α : Type} [BEq κ] [LawfulBEq κ]
    (d : List (κ × α)) (k k' : κ) (v : α) (h : k' ≠ k) :
    dictLookup (d.map (fun p => if p.1 == k then (k, v) else p)) k'
      = dictLookup d k' := by
  induction d with
  | nil => rfl
  | cons q d ih =>
    simp only [List.map_cons]
    by_cases hq : q.1 = k
    · rw [if_pos (by simp [hq]), dictLookup_cons, dictLookup_cons,
        if_neg (by simp [Ne.symm h]), if_neg (by simp [hq, Ne.symm h]), ih]
    · rw [if_neg (by simp [hq]), dictLookup_cons, dictLookup_cons, ih]

theorem dictLookup_dictInsert_self {κ α : Type} [BEq κ] [LawfulBEq κ]
    (d : List (κ × α)) (k : κ) (v : α) :
    dictLookup (dictInsert d k v) k = some v := by
  unfold dictInsert
  by_cases h : d.any (fun p => p.1 == k)
  · rw [if_pos h]
    refine dictLookup_map_replace d k v ?_
    simpa using h
  · rw [if_neg h]
    have hnm : k ∉ dictKeys d := by
      intro hk
      refine h ?_
      simp only [dictKeys, List.mem_map] at hk
      rcases hk with ⟨p, hp, hk⟩
      simp only [List.any_eq_true]
      exact ⟨p, hp, by simp [hk]⟩
    induction d with
    | nil => simp [dictLookup]
    | cons q d ih =>
      rw [List.cons_append, dictLookup_cons, if_neg]
      · refine ih ?_ ?_
        · intro ha
          refine h ?_
          simp only [List.any_eq_true] at ha ⊢
          rcases ha with ⟨p, hp, hb⟩
          exact ⟨p, List.mem_cons_of_mem q hp, hb⟩
        · intro hk
          exact hnm (by simpa [dictKeys] using Or.inr (by simpa [dictKeys] using hk))
      · have : q.1 ≠ k := by
          intro he
          exact hnm (by simp [dictKeys, he])
        simp [this]

theorem dictLookup_dictInsert_ne {κ α : Type} [BEq κ] [LawfulBEq κ]
    (d : List (κ × α)) (k k' : κ) (v : α) (h : k' ≠ k) :
    dictLookup (dictInsert d k v) k' = dictLookup d k' := by
  unfold dictInsert
  by_cases ha : d.any (fun p => p.1 == k)
  · rw [if_pos ha]
    exact dictLookup_map_replace_ne d k k' v h
  · rw [if_neg ha]
    induction d with
    | nil =>
      have h' : ¬k = k' := fun he => h he.symm
      simp [dictLookup, List.find?_cons, h']
    | cons q d ih =>
      rw [List.cons_append, dictLookup_cons, dictLookup_cons]
      by_cases hq : q.1 == k'
      · rw [if_pos hq, if_pos hq]
      · rw [if_neg (by simp_all), if_neg (by simp_all)]
        refine ih ?_
        intro hany
        refine ha ?_
        simp only [List.any_eq_true] at hany ⊢
        rcases hany with ⟨p, hp, hb⟩
        exact ⟨p, List.mem_cons_of_mem q hp, hb⟩

theorem mem_dictKeys_dictInsert {κ α : Type} [BEq κ] [LawfulBEq κ]
    (d : List (κ × α)) (k a : κ) (v : α) :
    a ∈ dictKeys (dictInsert d k v) ↔ a = k ∨ a ∈ dictKeys d := by
  unfold dictInsert
  by_cases h : d.any (fun p => p.1 == k)
  · rw [if_pos h]
    simp only [List.any_eq_true, beq_iff_eq] at h
    simp only [dictKeys, List.map_map, List.mem_map, Function.comp]
    constructor
    · rintro ⟨p, hp, hpa⟩
      by_cases hpk : p.1 = k
      · left
        rw [if_pos (by simp [hpk])] at hpa
        exact hpa.symm
      · right
        rw [if_neg (by simp [hpk])] at hpa
        exact ⟨p, hp, hpa⟩
    · rintro (rfl | ⟨p, hp, hpa⟩)
      · rcases h with ⟨p, hp, hpk⟩
        exact ⟨p, hp, by rw [if_pos (by simp [hpk])]⟩
      · by_cases hpk : p.1 = k
        · rcases h with ⟨q, hq, hqk⟩
          exact ⟨q, hq, by rw [if_pos (by simp [hqk])]; rw [← hpa, hpk]⟩
        · exact ⟨p, hp, by rw [if_neg (by simp [hpk])]; exact hpa⟩
  · rw [if_neg h]
    simp [dictKeys, or_comm]

theorem mem_dictInsert {κ α : Type} [BEq κ] [LawfulBEq κ]
    (d : List (κ × α)) (k : κ) (v : α) (p : κ × α)
    (h : p ∈ dictInsert d k v) : p ∈ d ∨ p = (k, v) := by
  unfold dictInsert at h
  by_cases ha : d.any (fun p => p.1 == k)
  · rw [if_pos ha] at h
    rcases List.mem_map.mp h with ⟨q, hq, hpq⟩
    by_cases hqk : q.1 = k
    · rw [if_pos (by simp [hqk])] at hpq
      exact Or.inr hpq.symm
    · rw [if_neg (by simp [hqk])] at hpq
      exact Or.inl (hpq ▸ hq)
  · rw [if_neg ha] at h
    rcases List.mem_append.mp h with h1 | h1
    · exact Or.inl h1
    · exact Or.inr (by simpa using h1)

/-- The lookup behavior of dict.update: a key found in the overlay
takes the overlay's value, any other key keeps the base dict's value
(for an overlay with no duplicate keys, as every parsed attribute dict
has). -/
theorem dictLookup_dictUpdate {κ α : Type} [BEq κ] [LawfulBEq κ]
    (other : List (κ × α)) :
    ∀ d : List (κ × α), (dictKeys other).Nodup →
      ∀ k, dictLookup (dictUpdate d other) k =
        (dictLookup other k <|> dictLookup d k) := by
  induction other with
  | nil => intro d _ k; simp [dictUpdate, dictLookup]
  | cons q rest ih =>
    intro d hnd k
    simp only [dictKeys, List.map_cons, List.nodup_cons] at hnd
    have step : dictUpdate d (q :: rest) = dictUpdate (dictInsert d q.1 q.2) rest := by
      simp [dictUpdate]
    rw [step, ih (dictInsert d q.1 q.2) (by simpa [dictKeys] using hnd.2) k]
    rw [dictLookup_cons]
    by_cases hk : q.1 = k
    · subst hk
      rw [if_pos (by simp),
        dictLookup_eq_none_of_not_mem rest q.1 (by simpa [dictKeys] using hnd.1),
        dictLookup_dictInsert_self d q.1 q.2]
      simp
    · rw [if_neg (by simp [hk])]
      rw [dictLookup_dictInsert_ne d q.1 k q.2 (fun he => hk he.symm)]

/-! Helper lemmas about the parsing folds. -/

theorem requireAttr_ok_iff {e : Element} {k s : String}
    (h : requireAttr e k = .ok s) : attrGet e k = some s := by
  unfold requireAttr at h
  split at h
  · exact Except.noConfusion h
  next v hv =>
    injection h with h
    exact h ▸ hv

theorem variant_from_et_name_attr {c : Element} {v : Variant}
    (h : Variant.from_et c = .ok v) : attrGet c "name" = some v.name := by
  unfold Variant.from_et at h
  split at h
  · exact Except.noConfusion h
  next name hname =>
    split at h
    · exact Except.noConfusion h
    next techs htechs =>
      injection h with h
      subst h
      exact requireAttr_ok_iff hname

theorem library_from_et_name_attr {c : Element} {lib : Library}
    (h : Library.from_et c = .ok lib) : lib.name = attrGet c "name" := by
  unfold Library.from_et at h
  split at h
  · exact Except.noConfusion h
  next packages hp =>
    split at h
    · exact Except.noConfusion h
    next symbols hs =>
      split at h
      · exact Except.noConfusion h
      next devices hd =>
        injection h with h
        subst h
        rfl

theorem parse_map_list_ok_keys {α : Type} (dec : Element → Except EagleError α) :
    ∀ (cs : List Element) (acc d : List (String × α)),
      parse_map_list dec cs acc = .ok d →
      ∀ k, k ∈ dictKeys d ↔
        k ∈ dictKeys acc ∨ ∃ c ∈ cs, attrGet c "name" = some k := by
  intro cs
  induction cs with
  | nil =>
    intro acc d h k
    unfold parse_map_list at h
    injection h with h
    subst h
    simp
  | cons c cs ih =>
    intro acc d h k
    unfold parse_map_list at h
    split at h
    · exact Except.noConfusion h
    next k0 ha =>
      split at h
      · exact Except.noConfusion h
      next v hv =>
        rw [ih _ _ h k, mem_dictKeys_dictInsert]
        simp only [List.mem_cons]
        constructor
        · rintro ((rfl | hacc) | ⟨c', hc', hn⟩)
          · exact Or.inr ⟨c, Or.inl rfl, ha⟩
          · exact Or.inl hacc
          · exact Or.inr ⟨c', Or.inr hc', hn⟩
        · rintro (hacc | ⟨c', (rfl | hc'), hn⟩)
          · exact Or.inl (Or.inr hacc)
          · rw [ha] at hn
            exact Or.inl (Or.inl (Option.some.inj hn).symm)
          · exact Or.inr ⟨c', hc', hn⟩

theorem parse_map_list_ok_mem {α : Type} (dec : Element → Except EagleError α) :
    ∀ (cs : List Element) (acc d : List (String × α)),
      parse_map_list dec cs acc = .ok d →
      ∀ p ∈ d, p ∈ acc ∨
        ∃ c ∈ cs, attrGet c "name" = some p.1 ∧ dec c = .ok p.2 := by
  intro cs
  induction cs with
  | nil =>
    intro acc d h p hp
    unfold parse_map_list at h
    injection h with h
    subst h
    exact Or.inl hp
  | cons c cs ih =>
    intro acc d h p hp
    unfold parse_map_list at h
    split at h
    · exact Except.noConfusion h
    next k0 ha =>
      split at h
      · exact Except.noConfusion h
      next v hv =>
        rcases ih _ _ h p hp with hi | ⟨c', hc', hn, hd⟩
        · rcases mem_dictInsert acc k0 v p hi with h1 | h1
          · exact Or.inl h1
          · subst h1
            exact Or.inr ⟨c, List.mem_cons_self c cs, ha, hv⟩
        · exact Or.inr ⟨c', List.mem_cons_of_mem c hc', hn, hd⟩

theorem parse_variants_list_ok_keys :
    ∀ (cs : List Element) (acc d : List (String × Variant)),
      parse_variants_list cs acc = .ok d →
      ∀ k, k ∈ dictKeys d ↔
        k ∈ dictKeys acc ∨ ∃ c ∈ cs, attrGet c "name" = some k := by
  intro cs
  induction cs with
  | nil =>
    intro acc d h k
    unfold parse_variants_list at h
    injection h with h
    subst h
    simp
  | cons c cs ih =>
    intro acc d h k
    unfold parse_variants_list at h
    split at h
    · exact Except.noConfusion h
    next v hv =>
      have ha : attrGet c "name" = some v.name := variant_from_et_name_attr hv
      rw [ih _ _ h k, mem_dictKeys_dictInsert, ha]
      simp only [Option.getD_some, List.mem_cons]
      constructor
      · rintro ((rfl | hacc) | ⟨c', hc', hn⟩)
        · exact Or.inr ⟨c, Or.inl rfl, ha⟩
        · exact Or.inl hacc
        · exact Or.inr ⟨c', Or.inr hc', hn⟩
      · rintro (hacc | ⟨c', (rfl | hc'), hn⟩)
        · exact Or.inl (Or.inr hacc)
        · rw [ha] at hn
          exact Or.inl (Or.inl (Option.some.inj hn).symm)
        · exact Or.inr ⟨c', hc', hn⟩

theorem parse_variants_list_ok_mem :
    ∀ (cs : List Element) (acc d : List (String × Variant)),
      parse_variants_list cs acc = .ok d →
      ∀ p ∈ d, p ∈ acc ∨
        ∃ c ∈ cs, attrGet c "name" = some p.1 ∧ Variant.from_et c = .ok p.2 := by
  intro cs
  induction cs with
  | nil =>
    intro acc d h p hp
    unfold parse_variants_list at h
    injection h with h
    subst h
    exact Or.inl hp
  | cons c cs ih =>
    intro acc d h p hp
    unfold parse_variants_list at h
    split at h
    · exact Except.noConfusion h
    next v hv =>
      have ha : attrGet c "name" = some v.name := variant_from_et_name_attr hv
      rcases ih _ _ h p hp with hi | ⟨c', hc', hn, hd⟩
      · rcases mem_dictInsert acc ((attrGet c "name").getD "") v p hi with h1 | h1
        · exact Or.inl h1
        · rw [ha] at h1
          simp only [Option.getD_some] at h1
          subst h1
          exact Or.inr ⟨c, List.mem_cons_self c cs, ha, hv⟩
      · exact Or.inr ⟨c', List.mem_cons_of_mem c hc', hn, hd⟩

theorem parse_library_map_list_ok_refs :
    ∀ (cs : List Element) (acc d : List (LibraryRef × Library)),
      parse_library_map_list cs acc = .ok d →
      (∀ p ∈ acc, p.2.ref = .ok p.1) → ∀ p ∈ d, p.2.ref = .ok p.1 := by
  intro cs
  induction cs with
  | nil =>
    intro acc d h hacc p hp
    unfold parse_library_map_list at h
    injection h with h
    subst h
    exact hacc p hp
  | cons c cs ih =>
    intro acc d h hacc p hp
    unfold parse_library_map_list at h
    split at h
    · exact Except.noConfusion h
    next lib hlib =>
      split at h
      · exact Except.noConfusion h
      next r href =>
        refine ih _ _ h ?_ p hp
        intro q hq
        rcases mem_dictInsert acc r lib q hq with h1 | h1
        · exact hacc q h1
        · subst h1
          exact href

theorem parse_library_map_list_ok_all :
    ∀ (cs : List Element) (acc d : List (LibraryRef × Library)),
      parse_library_map_list cs acc = .ok d →
      ∀ c ∈ cs, ∃ lib r, Library.from_et c = .ok lib ∧ lib.ref = .ok r := by
  intro cs
  induction cs with
  | nil =>
    intro acc d _ c hc
    exact absurd hc (List.not_mem_nil c)
  | cons c cs ih =>
    intro acc d h c' hc'
    unfold parse_library_map_list at h
    split at h
    · exact Except.noConfusion h
    next lib hlib =>
      split at h
      · exact Except.noConfusion h
      next r href =>
        rcases List.mem_cons.mp hc' with rfl | h1
        · exact ⟨lib, r, hlib, href⟩
        · exact ih _ _ h c' h1

theorem parse_library_map_list_nameless_error :
    ∀ (cs : List Element) (acc : List (LibraryRef × Library)),
      (∀ c ∈ cs, ∃ lib, Library.from_et c = .ok lib) →
      (∃ c ∈ cs, attrGet c "name" = none) →
      parse_library_map_list cs acc = .error .missingIdentity := by
  intro cs
  induction cs with
  | nil =>
    intro acc _ hex
    rcases hex with ⟨c, hc, _⟩
    exact absurd hc (List.not_mem_nil c)
  | cons c cs ih =>
    intro acc hall hex
    obtain ⟨lib, hlib⟩ := hall c (List.mem_cons_self c cs)
    cases hname : attrGet c "name" with
    | none =>
      have hn : lib.name = none := (library_from_et_name_attr hlib).trans hname
      have href : lib.ref = .error .missingIdentity := by
        simp [Library.ref, hn]
      unfold parse_library_map_list
      simp [hlib, href]
    | some n =>
      have hn : lib.name = some n := (library_from_et_name_attr hlib).trans hname
      have href : lib.ref = .ok ⟨n, lib.urn⟩ := by
        simp [Library.ref, hn]
      unfold parse_library_map_list
      rw [hlib]
      simp only [href]
      refine ih _ (fun c' hc' => hall c' (List.mem_cons_of_mem c hc')) ?_
      rcases hex with ⟨c', hc', hn'⟩
      rcases List.mem_cons.mp hc' with rfl | h1
      · rw [hname] at hn'
        exact Option.noConfusion hn'
      · exact ⟨c', h1, hn'⟩

/-! Helper lemmas about the dict store. -/

theorem Store.length_alloc (h : Store) (v : List (String × String)) :
    (h.alloc v).1.cells.length = h.cells.length + 1 := by
  simp [Store.alloc]

theorem Store.length_write (h : Store) (a : Nat) (v : List (String × String)) :
    (h.write a v).cells.length = h.cells.length := by
  simp [Store.write]

theorem Store.read_alloc_self (h : Store) (v : List (String × String)) :
    (h.alloc v).1.read (h.alloc v).2 = v := by
  simp [Store.alloc, Store.read, List.getD_eq_getElem?_getD,
    List.getElem?_append_right]

theorem Store.read_alloc_of_lt (h : Store) (v : List (String × String))
    (a : Nat) (hlt : a < h.cells.length) : (h.alloc v).1.read a = h.read a := by
  simp [Store.alloc, Store.read, List.getD_eq_getElem?_getD,
    List.getElem?_append, hlt]

theorem Store.read_write_self (h : Store) (a : Nat)
    (v : List (String × String)) (hlt : a < h.cells.length) :
    (h.write a v).read a = v := by
  simp [Store.write, Store.read, List.getD_eq_getElem?_getD,
    List.getElem?_set_self, hlt]

theorem Store.read_write_ne (h : Store) (a b : Nat)
    (v : List (String × String)) (hne : a ≠ b) :
    (h.write b v).read a = h.read a := by
  simp [Store.write, Store.read, List.getD_eq_getElem?_getD,
    List.getElem?_set_ne (fun he => hne he.symm)]

/-! Claim theorems. -/

/-- C1. The spec says Part resolution looks up
LibraryRef(part.library_name, part.library_global_id) in the
Schematic's libraries mapping and succeeds when all four keys are
present. The code (cli.py line 127) instead subscripts the
LibraryRef-keyed mapping with the bare string part.library, which under
Python equality never matches a LibraryRef tuple: on a schematic where
all four keys are present, resolution by library_ref succeeds while the
code's own chain raises KeyError at the very first segment. -/
theorem c1_code_divergence :
    Schematic.from_et exSchElem = .ok exSch ∧
    dictLookup exSch.parts "P1" = some exPart ∧
    dictLookup exSch.libraries exPart.library_ref = some exLibrary ∧
    dictLookup exLibrary.devices exPart.device = some exDevice ∧
    dictLookup exDevice.variants exPart.variant = some exVariant ∧
    dictLookup exVariant.technologies exPart.technology = some exTech ∧
    resolve_tech_by_ref exSch exPart = .ok exTech ∧
    cli_resolve_tech exSch exPart = .error (.unresolvedReference "library") :=
  ⟨rfl, rfl, rfl, rfl, rfl, rfl, rfl, rfl⟩

/-- C2, counterexample. A document whose drawing scope contains a board
child (with no grandchildren) is classified UnrecognizedDocument, so
classification does not return the kind of the first content child
present, and UnrecognizedDocument is not raised exactly when none of
the three children is present. -/
theorem c2_counterexample :
    c2doc.tag = "eagle" ∧
    find2 c2doc "drawing" "board" = some (el "board" [] []) ∧
    load_file c2doc = .error .unrecognizedDocument :=
  ⟨rfl, rfl, rfl⟩

/-- C2, amended. Classification fails with NotEagleDocument when the
root tag is not 'eagle'; otherwise it probes board, then library, then
schematic under the drawing scope, where a child counts as present only
when it is Python-truthy (has at least one child element), returns the
kind of the first such child, and fails with UnrecognizedDocument
exactly when none of the three is present-and-nonempty. -/
theorem c2_amended (root : Element) :
    (root.tag ≠ "eagle" → load_file root = .error .notEagleDocument) ∧
    (∀ b, root.tag = "eagle" → truthyFind root "board" = some b →
      load_file root = .ok ("board", b)) ∧
    (∀ l, root.tag = "eagle" → truthyFind root "board" = none →
      truthyFind root "library" = some l →
      load_file root = .ok ("library", l)) ∧
    (∀ s, root.tag = "eagle" → truthyFind root "board" = none →
      truthyFind root "library" = none →
      truthyFind root "schematic" = some s →
      load_file root = .ok ("schematic", s)) ∧
    (root.tag = "eagle" →
      (load_file root = .error .unrecognizedDocument ↔
        truthyFind root "board" = none ∧ truthyFind root "library" = none ∧
          truthyFind root "schematic" = none)) := by
  refine ⟨?_, ?_, ?_, ?_, ?_⟩
  · intro h
    simp [load_file, h]
  · intro b ht hb
    simp [load_file, ht, hb]
  · intro l ht hb hl
    simp [load_file, ht, hb, hl]
  · intro s ht hb hl hs
    simp [load_file, ht, hb, hl, hs]
  · intro ht
    constructor
    · intro herr
      cases hb : truthyFind root "board" with
      | some b => simp [load_file, ht, hb] at herr
      | none =>
        cases hl : truthyFind root "library" with
        | some l => simp [load_file, ht, hb, hl] at herr
        | none =>
          cases hs : truthyFind root "schematic" with
          | some s => simp [load_file, ht, hb, hl, hs] at herr
          | none => exact ⟨rfl, rfl, rfl⟩
    · rintro ⟨hb, hl, hs⟩
      simp [load_file, ht, hb, hl, hs]

/-- C2, witness for the amended theorem: a non-eagle root fails with
NotEagleDocument, and an eagle document with a non-empty board child is
classified as a board. -/
theorem c2_amended_witness :
    ((el "x" [] []).tag ≠ "eagle" ∧
      load_file (el "x" [] []) = .error .notEagleDocument) ∧
    (c2docFull.tag = "eagle" ∧ truthyFind c2docFull "board" = some c2boardFull ∧
      load_file c2docFull = .ok ("board", c2boardFull)) :=
  ⟨⟨by decide, (c2_amended (el "x" [] [])).1 (by decide)⟩,
   ⟨rfl, rfl, (c2_amended c2docFull).2.1 c2boardFull rfl rfl⟩⟩

/-- C3. The claim says a variant child with no name attribute is stored
under the empty-string key with name equal to the empty string. The
code computes exactly that key (attrib.get('name', '') on line 110) but
then calls Variant.from_et, which reads attrib['name'] (line 83) and
raises KeyError: constructing the DeviceFamily fails with
MissingAttribute instead of succeeding. -/
theorem c3_code_divergence :
    attrGet c3varElem "name" = none ∧
    (attrGet c3varElem "name").getD "" = "" ∧
    Variant.from_et c3varElem = .error (.missingAttribute "name") ∧
    Device.from_et c3elem = .error (.missingAttribute "name") :=
  ⟨rfl, rfl, rfl, rfl⟩

/-- C5, counterexample. A standalone library document carries no name
attribute on its library element (per the DTD noted in the source), so
the Library parsed from it has name absent and its LibraryRef
derivation fails with MissingIdentity — contradicting the claim that a
standalone-parsed Library has name present and a succeeding ref. -/
theorem c5_counterexample :
    load_file c5doc = .ok ("library", c5libElem) ∧
    parse_file c5doc = .ok (.library c5lib) ∧
    c5lib.name = none ∧
    c5lib.ref = .error .missingIdentity :=
  ⟨rfl, rfl, rfl, rfl⟩

/-- C5, amended. Deriving a LibraryRef fails with MissingIdentity
exactly when the Library's name is absent; a Library parsed from a
standalone top-level document has name absent (per the DTD the name
attribute appears only inside board/schematic files) so its ref
derivation fails with MissingIdentity, while a library element carrying
a name attribute (as when embedded in a schematic) parses to a Library
whose ref derivation succeeds. -/
theorem c5_amended :
    (∀ lib : Library, lib.name = none → lib.ref = .error .missingIdentity) ∧
    (∀ (lib : Library) (n : String), lib.name = some n →
      lib.ref = .ok ⟨n, lib.urn⟩) ∧
    (parse_file c5doc = .ok (.library c5lib) ∧ c5lib.name = none ∧
      c5lib.ref = .error .missingIdentity) ∧
    (Library.from_et c5namedElem = .ok c5named ∧
      c5named.ref = .ok ⟨"L", ""⟩) := by
  refine ⟨?_, ?_, ⟨rfl, rfl, rfl⟩, ⟨rfl, rfl⟩⟩
  · intro lib h
    simp [Library.ref, h]
  · intro lib n h
    simp [Library.ref, h]

/-- C5, witness for the amended theorem, at the standalone-parsed
nameless Library and at the named embedded one. -/
theorem c5_amended_witness :
    (c5lib.name = none ∧ c5lib.ref = .error .missingIdentity) ∧
    (c5named.name = some "L" ∧ c5named.ref = .ok ⟨"L", ""⟩) :=
  ⟨⟨rfl, c5_amended.1 c5lib rfl⟩, ⟨rfl, c5_amended.2.1 c5named "L" rfl⟩⟩

/-- C6. render_device_name (cli.py _format_dev) substitutes '?' in the
family name with the variant name, or appends it when no '?' is
present; then substitutes '*' in the result with the technology name,
or appends it, when one is supplied; and the four quoted examples
evaluate as stated. -/
theorem c6_render_device_name :
    (∀ d, format_dev d none none = d) ∧
    (∀ d v t, format_dev d (some v) t =
      format_dev (if pyContains d '?' then pyReplace d '?' v else d ++ v)
        none t) ∧
    (∀ d t, format_dev d none (some t) =
      if pyContains d '*' then pyReplace d '*' t else d ++ t) ∧
    format_dev "IC?" (some "A") none = "ICA" ∧
    format_dev "IC" (some "A") (some "X") = "ICAX" ∧
    format_dev "IC?-*" (some "A") (some "X") = "ICA-X" :=
  ⟨fun _ => rfl, fun _ _ _ => rfl, fun _ _ => rfl,
   by decide, by decide, by decide⟩

/-- C7. decode_bool maps "no" to false and "yes" to true; an absent
token with a supplied default returns the default; an absent token with
no default, and any other token value (case-sensitive exact match
only), fail with InvalidEncoding. -/
theorem c7_decode_bool :
    parse_bool "no" = .ok false ∧
    parse_bool "yes" = .ok true ∧
    (∀ t d, decode_bool (some t) d = parse_bool t) ∧
    (∀ b, decode_bool none (some b) = .ok b) ∧
    decode_bool none none = .error (.invalidEncoding none) ∧
    (∀ s d, s ≠ "no" → s ≠ "yes" →
      decode_bool (some s) d = .error (.invalidEncoding (some s))) := by
  refine ⟨rfl, rfl, fun _ _ => rfl, fun _ => rfl, rfl, ?_⟩
  intro s d h1 h2
  simp [decode_bool, parse_bool, h1, h2]

/-- C7, witness: the token "maybe" is neither "no" nor "yes" and fails
with InvalidEncoding. -/
theorem c7_decode_bool_witness :
    ("maybe" : String) ≠ "no" ∧ ("maybe" : String) ≠ "yes" ∧
    decode_bool (some "maybe") none = .error (.invalidEncoding (some "maybe")) :=
  ⟨by decide, by decide,
   c7_decode_bool.2.2.2.2.2 "maybe" none (by decide) (by decide)⟩

/-- C4. A resolved Part's effective attribute mapping (cli.py lines
128-129) is the Technology's attributes overlaid with the Part's own
attributes: a key present in the part's attributes takes the part's
value, any other key keeps the technology's value; on the quoted
example, Technology {MPN: X1, TOL: 1%} overlaid with Part {MPN: X2}
yields {MPN: X2, TOL: 1%}. -/
theorem c4_effective_attributes :
    (∀ (tech : Technology) (part : Part), (dictKeys part.attributes).Nodup →
      ∀ k, dictLookup (cliEffectiveAttrs tech part) k =
        (dictLookup part.attributes k <|> dictLookup tech.attributes k)) ∧
    cliEffectiveAttrs ⟨"T", [("MPN", "X1"), ("TOL", "1%")]⟩
        ⟨"P1", "L", "", "D", "V", "", none, [("MPN", "X2")]⟩
      = [("MPN", "X2"), ("TOL", "1%")] := by
  constructor
  · intro tech part hnd k
    exact dictLookup_dictUpdate part.attributes tech.attributes hnd k
  · rfl

/-- C4, witness at the quoted example: the part's MPN wins and the
technology's TOL survives. -/
theorem c4_effective_attributes_witness :
    (dictKeys exPart.attributes).Nodup ∧
    dictLookup (cliEffectiveAttrs exTech exPart) "MPN" =
      (dictLookup exPart.attributes "MPN" <|> dictLookup exTech.attributes "MPN") ∧
    dictLookup (cliEffectiveAttrs exTech exPart) "TOL" =
      (dictLookup exPart.attributes "TOL" <|> dictLookup exTech.attributes "TOL") :=
  ⟨by decide,
   c4_effective_attributes.1 exTech exPart (by decide) "MPN",
   c4_effective_attributes.1 exTech exPart (by decide) "TOL"⟩

/-- C8. Round-trip: for a library document that parses, the key set of
the Library's devices mapping is exactly the set of name attributes of
the devicesets/deviceset children, each DeviceFamily's variants key set
is exactly the name-attribute set of its devices/device children, and
each Variant's technologies key set is exactly the name-attribute set
of its technologies/technology children; every stored value moreover
comes from parsing one of those children. -/
theorem c8_roundtrip :
    (∀ (e : Element) (lib : Library), Library.from_et e = .ok lib →
      (∀ k, k ∈ dictKeys lib.devices ↔
        ∃ c ∈ iterfind2 e "devicesets" "deviceset", attrGet c "name" = some k) ∧
      (∀ p ∈ lib.devices,
        ∃ c ∈ iterfind2 e "devicesets" "deviceset",
          attrGet c "name" = some p.1 ∧ Device.from_et c = .ok p.2)) ∧
    (∀ (e : Element) (fam : Device), Device.from_et e = .ok fam →
      (∀ k, k ∈ dictKeys fam.variants ↔
        ∃ c ∈ iterfind2 e "devices" "device", attrGet c "name" = some k) ∧
      (∀ p ∈ fam.variants,
        ∃ c ∈ iterfind2 e "devices" "device",
          attrGet c "name" = some p.1 ∧ Variant.from_et c = .ok p.2)) ∧
    (∀ (e : Element) (v : Variant), Variant.from_et e = .ok v →
      ∀ k, k ∈ dictKeys v.technologies ↔
        ∃ c ∈ iterfind2 e "technologies" "technology",
          attrGet c "name" = some k) := by
  refine ⟨?_, ?_, ?_⟩
  · intro e lib h
    unfold Library.from_et at h
    split at h
    · exact Except.noConfusion h
    next packages hp =>
      split at h
      · exact Except.noConfusion h
      next symbols hs =>
        split at h
        · exact Except.noConfusion h
        next devices hd =>
          injection h with h
          subst h
          constructor
          · intro k
            simpa [dictKeys] using
              parse_map_list_ok_keys Device.from_et _ [] devices hd k
          · intro p hp2
            simpa using
              parse_map_list_ok_mem Device.from_et _ [] devices hd p hp2
  · intro e fam h
    unfold Device.from_et at h
    split at h
    · exact Except.noConfusion h
    next name hname =>
      split at h
      · exact Except.noConfusion h
      next uservalue hu =>
        split at h
        · exact Except.noConfusion h
        next gates hg =>
          split at h
          · exact Except.noConfusion h
          next variants hv =>
            injection h with h
            subst h
            constructor
            · intro k
              simpa [dictKeys] using
                parse_variants_list_ok_keys _ [] variants hv k
            · intro p hp2
              simpa using parse_variants_list_ok_mem _ [] variants hv p hp2
  · intro e v h
    unfold Variant.from_et at h
    split at h
    · exact Except.noConfusion h
    next name hname =>
      split at h
      · exact Except.noConfusion h
      next techs ht =>
        injection h with h
        subst h
        intro k
        simpa [dictKeys] using
          parse_map_list_ok_keys Technology.from_et _ [] techs ht k

/-- C8, witness at a concrete one-deviceset library element: its parse
succeeds and the devices key set is exactly the deviceset names. -/
theorem c8_roundtrip_witness :
    Library.from_et c8libElem = .ok exLibrary ∧
    (∀ k, k ∈ dictKeys exLibrary.devices ↔
      ∃ c ∈ iterfind2 c8libElem "devicesets" "deviceset",
        attrGet c "name" = some k) :=
  ⟨rfl, (c8_roundtrip.1 c8libElem exLibrary rfl).1⟩

/-- C9. Computing a Part's effective attributes copies the Technology's
attribute dict before updating: in the dict-store model, one iteration
writes the overlay into a freshly allocated cell and any sequence of
iterations by any Parts leaves the Technology's own cell holding its
originally parsed mapping. -/
theorem c9_technology_not_mutated :
    (∀ (h : Store) (techAddr : Nat) (tech : Technology) (p : Part),
      techAddr < h.cells.length → h.read techAddr = tech.attributes →
      ((partEffectiveRun h techAddr p).1.read (partEffectiveRun h techAddr p).2
          = cliEffectiveAttrs tech p ∧
        (partEffectiveRun h techAddr p).1.read techAddr = tech.attributes ∧
        techAddr < (partEffectiveRun h techAddr p).1.cells.length)) ∧
    (∀ (ps : List Part) (h : Store) (techAddr : Nat) (tech : Technology),
      techAddr < h.cells.length → h.read techAddr = tech.attributes →
      (partsEffectiveRun h techAddr ps).read techAddr = tech.attributes) := by
  have step : ∀ (h : Store) (techAddr : Nat) (tech : Technology) (p : Part),
      techAddr < h.cells.length → h.read techAddr = tech.attributes →
      ((partEffectiveRun h techAddr p).1.read (partEffectiveRun h techAddr p).2
          = cliEffectiveAttrs tech p ∧
        (partEffectiveRun h techAddr p).1.read techAddr = tech.attributes ∧
        techAddr < (partEffectiveRun h techAddr p).1.cells.length) := by
    intro h a tech p hlt hread
    have hne : a ≠ (h.alloc (h.read a)).2 := Nat.ne_of_lt hlt
    have hlt' : (h.alloc (h.read a)).2 < (h.alloc (h.read a)).1.cells.length := by
      rw [Store.length_alloc]
      exact Nat.lt_succ_self _
    refine ⟨?_, ?_, ?_⟩
    · show ((h.alloc (h.read a)).1.write (h.alloc (h.read a)).2
          (dictUpdate ((h.alloc (h.read a)).1.read (h.alloc (h.read a)).2)
            p.attributes)).read (h.alloc (h.read a)).2 = _
      rw [Store.read_write_self _ _ _ hlt', Store.read_alloc_self, hread]
      rfl
    · show ((h.alloc (h.read a)).1.write (h.alloc (h.read a)).2 _).read a = _
      rw [Store.read_write_ne _ _ _ _ hne, Store.read_alloc_of_lt _ _ _ hlt,
        hread]
    · show a < ((h.alloc (h.read a)).1.write _ _).cells.length
      rw [Store.length_write, Store.length_alloc]
      exact Nat.lt_succ_of_lt hlt
  refine ⟨step, ?_⟩
  intro ps
  induction ps with
  | nil =>
    intro h a tech hlt hread
    simpa [partsEffectiveRun] using hread
  | cons p ps ih =>
    intro h a tech hlt hread
    obtain ⟨-, h2, h3⟩ := step h a tech p hlt hread
    exact ih _ a tech h3 h2

/-- C9, witness: a store holding one technology dict, run over two
parts, leaves the technology's cell unchanged. -/
theorem c9_technology_not_mutated_witness :
    (0 < (Store.mk [[("MPN", "X1"), ("TOL", "1%")]]).cells.length ∧
      (Store.mk [[("MPN", "X1"), ("TOL", "1%")]]).read 0 = exTech.attributes) ∧
    (partsEffectiveRun (Store.mk [[("MPN", "X1"), ("TOL", "1%")]]) 0
        [exPart, exPart]).read 0 = exTech.attributes :=
  ⟨⟨by decide, rfl⟩,
   c9_technology_not_mutated.2 [exPart, exPart]
     (Store.mk [[("MPN", "X1"), ("TOL", "1%")]]) 0 exTech (by decide) rfl⟩

/-- C10. In every successfully parsed Schematic, each entry of the
libraries mapping is keyed by exactly the LibraryRef derived from the
stored Library (so every embedded Library has a present name); a
schematic document embedding a library element with no name attribute
never parses to a Schematic; and when each embedded library element
itself constructs (so the failure is the key derivation, not an earlier
missing attribute), the whole schematic parse aborts with exactly the
MissingIdentity failure. -/
theorem c10_schematic_library_keys :
    (∀ (e : Element) (sch : Schematic), Schematic.from_et e = .ok sch →
      ∀ p ∈ sch.libraries, p.2.ref = .ok p.1 ∧ p.2.name = some p.1.name) ∧
    (∀ e : Element,
      (∃ c ∈ iterfind2 e "libraries" "library", attrGet c "name" = none) →
      ∀ sch, Schematic.from_et e ≠ .ok sch) ∧
    (∀ e : Element,
      (∀ c ∈ iterfind2 e "libraries" "library",
        ∃ lib, Library.from_et c = .ok lib) →
      (∃ c ∈ iterfind2 e "libraries" "library", attrGet c "name" = none) →
      Schematic.from_et e = .error .missingIdentity) := by
  refine ⟨?_, ?_, ?_⟩
  · intro e sch h p hp
    unfold Schematic.from_et at h
    split at h
    · exact Except.noConfusion h
    next libraries hlib =>
      split at h
      · exact Except.noConfusion h
      next parts hparts =>
        injection h with h
        subst h
        have href := parse_library_map_list_ok_refs _ [] libraries hlib
          (by intro q hq; exact absurd hq (List.not_mem_nil q)) p hp
        refine ⟨href, ?_⟩
        unfold Library.ref at href
        split at href
        · exact Except.noConfusion href
        next n hn =>
          injection href with href
          rw [hn, ← href]
  · rintro e ⟨c, hc, hnone⟩ sch h
    unfold Schematic.from_et at h
    split at h
    · exact Except.noConfusion h
    next libraries hlib =>
      obtain ⟨lib, r, hfe, href⟩ :=
        parse_library_map_list_ok_all _ [] libraries hlib c hc
      have hname : lib.name = none := (library_from_et_name_attr hfe).trans hnone
      unfold Library.ref at href
      rw [hname] at href
      exact Except.noConfusion href
  · intro e hall hex
    unfold Schematic.from_et
    rw [parse_library_map_list_nameless_error _ [] hall hex]

/-- C10, witness: the parsed example schematic's single library entry
is keyed by its own ref, and the nameless-library schematic document
does not parse but aborts with exactly the MissingIdentity failure. -/
theorem c10_schematic_library_keys_witness :
    (Schematic.from_et exSchElem = .ok exSch ∧
      (∀ p ∈ exSch.libraries, p.2.ref = .ok p.1 ∧ p.2.name = some p.1.name)) ∧
    ((∃ c ∈ iterfind2 c10doc "libraries" "library", attrGet c "name" = none) ∧
      Schematic.from_et c10doc ≠ .ok ⟨none, [], []⟩) ∧
    ((∀ c ∈ iterfind2 c10doc "libraries" "library",
        ∃ lib, Library.from_et c = .ok lib) ∧
      Schematic.from_et c10doc = .error .missingIdentity) :=
  ⟨⟨rfl, c10_schematic_library_keys.1 exSchElem exSch rfl⟩,
   ⟨by decide, c10_schematic_library_keys.2.1 c10doc (by decide) ⟨none, [], []⟩⟩,
   ⟨fun c hc => by
      have hc' : c ∈ [el "library" [] [el "packages" [] []]] := hc
      rw [List.mem_singleton.mp hc']
      exact ⟨c10lib, rfl⟩,
    c10_schematic_library_keys.2.2 c10doc
      (fun c hc => by
        have hc' : c ∈ [el "library" [] [el "packages" [] []]] := hc
        rw [List.mem_singleton.mp hc']
        exact ⟨c10lib, rfl⟩)
      (by decide)⟩⟩

end EagleTools
